import Mathlib

/-! # CircleCI insights exporter (`main.go`): shallow embedding and properties

The Go program polls one CircleCI insights page on a ticker and republishes each
workflow's `success_rate` as a labelled Prometheus gauge.

Modelling conventions.

* `float64` values are only ever carried from the decoded response into the gauge
  (`Gauge.Set` stores `math.Float64bits(v)`), never computed with: they are
  represented by their IEEE-754 bit pattern, a `Nat`.
* Go `int` is the 64-bit signed integer; values are `Int`, and the one place where
  the program multiplies (`time.Duration(interval) * time.Second`) wraps explicitly.
* The process environment is a partial map from variable names to values;
  `os.Getenv` returns the empty string for an unset variable.
* The HTTP peer is a function from the request to the response the client
  receives, `none` standing for a transport failure (`Do` returns a nil response).
* `json.Unmarshal` belongs to the standard library.  A response body is
  represented by the class of byte strings it belongs to with respect to
  `json.Unmarshal(body, &m)` for `m : WorkflowInsight`: either the call fails, or
  it succeeds and leaves a given value in `m`.
* `log.Fatal` and a runtime panic both end the process; a function that can end
  the process returns `Except Exit _`.
-/

namespace Exporter

/-! ## Data model -/

/-- Bit pattern of a Go `float64`. -/
abbrev float64 := Nat

/-- Go `time.Time`, as nanoseconds from the zero time. -/
abbrev Time := Int

/-- The anonymous struct under `duration_metrics`. -/
structure DurationMetrics where
  Min : Int := 0
  Max : Int := 0
  Median : Int := 0
  Mean : Int := 0
  P95 : Int := 0
  StandardDeviation : float64 := 0
  deriving DecidableEq, Repr

/-- The anonymous struct under `metrics`. -/
structure Metrics where
  TotalRuns : Int := 0
  SuccessfulRuns : Int := 0
  Mttr : Int := 0
  TotalCreditsUsed : Int := 0
  FailedRuns : Int := 0
  SuccessRate : float64 := 0
  DurationMetrics : DurationMetrics := {}
  TotalRecoveries : Int := 0
  Throughput : float64 := 0
  deriving DecidableEq, Repr

/-- One element of `WorkflowInsight.Items`. -/
structure Item where
  Name : String := ""
  Metrics : Metrics := {}
  WindowStart : Time := 0
  WindowEnd : Time := 0
  deriving DecidableEq, Repr

/-- The struct `WorkflowInsight`: `next_page_token` (nil or a token) and `items`. -/
structure WorkflowInsight where
  NextPageToken : Option String := none
  Items : List Item := []
  deriving DecidableEq, Repr

/-! ## Errors and process exit -/

/-- The `Err` field of a `*strconv.NumError`. -/
inductive NumErr
  | ErrSyntax
  | ErrRange
  deriving DecidableEq, Repr

/-- Go `error` values the program can hold. -/
inductive GoError
  /-- `*strconv.NumError` with fields `Func`, `Num`, `Err`. -/
  | NumError (func num : String) (err : NumErr)
  /-- The error returned by a failing `json.Unmarshal`. -/
  | Unmarshal
  /-- `fmt.Errorf(msg)` without a wrapped error. -/
  | Errorf (msg : String)
  /-- `fmt.Errorf(msg ++ ": %w", inner)`. -/
  | Wrap (msg : String) (inner : GoError)
  deriving DecidableEq, Repr

/-- How the process ends. -/
inductive Exit
  /-- `log.Fatal(msg, err)`; `msg` is empty for `log.Fatal(err)`. -/
  | Fatal (msg : String) (err : GoError)
  /-- A runtime panic outside any `recover`. -/
  | Panic (reason : String)
  deriving DecidableEq, Repr

/-- Equality of `Except` values is decidable when it is on both sides. -/
instance instDecidableEqExcept {ε α : Type} [DecidableEq ε] [DecidableEq α] :
    DecidableEq (Except ε α)
  | .ok a, .ok b => if h : a = b then isTrue (by rw [h]) else isFalse (by intro h1; cases h1; exact h rfl)
  | .error a, .error b =>
    if h : a = b then isTrue (by rw [h]) else isFalse (by intro h1; cases h1; exact h rfl)
  | .ok _, .error _ => isFalse (by intro h; cases h)
  | .error _, .ok _ => isFalse (by intro h; cases h)

/-! ## Environment -/

/-- The process environment. -/
abbrev Environ := String → Option String

/-- Go `os.Getenv`: the value, or `""` when the variable is not set. -/
def Getenv (env : Environ) (key : String) : String :=
  (env key).getD ""

/-! ## `strconv.Atoi` -/

/-- The loop of Go `strconv.ParseUint(s, 10, 64)` over the bytes still to read,
`n` being the value read so far: a byte that is not a decimal digit is a syntax
error, and a value leaving the `uint64` range is a range error, whichever comes
first. -/
def parseUintLoop : List Char → Nat → Except NumErr Nat
  | [], n => .ok n
  | c :: cs, n =>
    if '0' ≤ c ∧ c ≤ '9' then
      if n ≥ (2 ^ 64 - 1) / 10 + 1 then .error .ErrRange
      else if n * 10 + (c.toNat - '0'.toNat) > 2 ^ 64 - 1 then .error .ErrRange
      else parseUintLoop cs (n * 10 + (c.toNat - '0'.toNat))
    else .error .ErrSyntax

/-- Go `strconv.Atoi`, that is `ParseInt(s, 10, 0)` on a 64-bit platform: an
optional sign followed by one or more decimal digits, within the `int` range.
The error is a `*NumError` with `Func = "Atoi"` and `Num = s`. -/
def Atoi (s : String) : Except GoError Int :=
  match s.toList with
  | [] => .error (.NumError "Atoi" s .ErrSyntax)
  | c :: cs =>
    let neg := c = '-'
    let digits := if c = '+' ∨ c = '-' then cs else c :: cs
    match digits with
    | [] => .error (.NumError "Atoi" s .ErrSyntax)
    | d :: ds =>
      match parseUintLoop (d :: ds) 0 with
      | .error e => .error (.NumError "Atoi" s e)
      | .ok un =>
        if neg then
          if un > 2 ^ 63 then .error (.NumError "Atoi" s .ErrRange) else .ok (-(un : Int))
        else
          if un ≥ 2 ^ 63 then .error (.NumError "Atoi" s .ErrRange) else .ok (un : Int)

/-! ## `getInterval` and `getCircleCIToken` -/

/-- The constant `defaultCircleCIAPIIntervalSecond`. -/
def defaultCircleCIAPIIntervalSecond : Int := 300

/-- Source function `getInterval`. -/
def getInterval (env : Environ) : Except GoError Int :=
  let circleciAPIInterval := Getenv env "CIRCLECI_API_INTERVAL"
  if circleciAPIInterval.length = 0 then
    .ok defaultCircleCIAPIIntervalSecond
  else
    match Atoi circleciAPIInterval with
    | .error err => .error (.Wrap "failed to read CircleCI Config" err)
    | .ok integerCircleCIAPIInterval => .ok integerCircleCIAPIInterval

/-- Source function `getCircleCIToken`. -/
def getCircleCIToken (env : Environ) : Except GoError String :=
  let circleciToken := Getenv env "CIRCLECI_TOKEN"
  if circleciToken.length = 0 then
    .error (.Errorf "missing environment variable CIRCLECI_TOKEN")
  else
    .ok circleciToken

/-! ## Metric registry -/

/-- The children of the gauge vector `successRate`, keyed by the value of its one
label `name`; each child holds the bits last stored by `Set`. -/
abbrev GaugeVec := List (String × float64)

/-- `successRate.Reset()`: deletes every child. -/
def GaugeVec.Reset (_g : GaugeVec) : GaugeVec := []

/-- `successRate.With(Labels{"name": name}).Set(v)`: the child for `name` is
created when missing, and its value is overwritten. -/
def GaugeVec.Set : GaugeVec → String → float64 → GaugeVec
  | [], name, v => [(name, v)]
  | (k, w) :: rest, name, v =>
    if k = name then (k, v) :: rest else (k, w) :: GaugeVec.Set rest name v

/-- `successRate.With(Labels{"name": name})` alone: the child for `name` is looked
up, and created when missing; a new gauge holds the value 0. -/
def GaugeVec.With : GaugeVec → String → GaugeVec
  | [], name => [(name, 0)]
  | (k, w) :: rest, name =>
    if k = name then (k, w) :: rest else (k, w) :: GaugeVec.With rest name

/-- `Gauge.Set(v)` alone, on the child that `With` returned for `name`: the value
of that child is overwritten. -/
def GaugeVec.store : GaugeVec → String → float64 → GaugeVec
  | [], _, _ => []
  | (k, w) :: rest, name, v =>
    if k = name then (k, v) :: rest else (k, w) :: GaugeVec.store rest name v

/-- Label values currently exported. -/
def GaugeVec.names (g : GaugeVec) : List String := g.map Prod.fst

/-- Value exported for a label value, if any. -/
def GaugeVec.value : GaugeVec → String → Option float64
  | [], _ => none
  | (k, w) :: rest, name => if k = name then some w else GaugeVec.value rest name

/-! ## HTTP -/

/-- An outgoing request: method, URL and header fields. -/
structure Request where
  method : String
  url : String
  header : List (String × String)
  deriving DecidableEq, Repr

/-- A response body, by what `json.Unmarshal(body, &m)` does with it. -/
inductive Body
  /-- `json.Unmarshal` returns an error. -/
  | undecodable
  /-- `json.Unmarshal` returns nil and leaves `m` equal to the given value.  The
  JSON object `{"message":"Not Found"}` is such a body, with the zero value:
  keys that match no field are skipped. -/
  | decodes (m : WorkflowInsight)
  deriving DecidableEq, Repr

/-- The response handed back by `http.DefaultClient.Do`. -/
structure Response where
  StatusCode : Nat
  Body : Body
  deriving DecidableEq, Repr

/-- The HTTP peer; `none` is a transport failure. -/
abbrev Remote := Request → Option Response

/-- `json.Unmarshal(body, &m)` for `m : WorkflowInsight`. -/
def jsonUnmarshal : Body → Except GoError WorkflowInsight
  | .undecodable => .error .Unmarshal
  | .decodes m => .ok m

/-- Success statuses of HTTP: 2xx. -/
def isSuccessStatus (status : Nat) : Bool := 200 ≤ status && status < 300

/-! ## Observable actions -/

/-- Actions of the process on its collaborators, in program order. -/
inductive Event
  | MustRegister
  | Handle (pattern : String)
  | NewTicker (d : Int)
  | Tick
  | Reset
  | Do (req : Request)
  | Printf (m : WorkflowInsight)
  | Set (name : String) (v : float64)
  deriving DecidableEq, Repr

/-! ## `getV2WorkflowInsights` -/

def branch : String := "develop"
def reportingWingow : String := "last-7-days"
def org : String := "quipper"
def repo : String := "monorepo"

/-- The local `url` of `getV2WorkflowInsights`. -/
def url : String :=
  "https://circleci.com/api/v2/insights/gh/" ++ org ++ "/" ++ repo ++ "/workflows?" ++
    "&branch=" ++ branch ++ "&reporting-window=" ++ reportingWingow

/-- Outcome of one call of `getV2WorkflowInsights`: the request issued and the
value printed, and either the end of the process or the returned pair
`(WorkflowInsight, error)`. -/
structure Fetch where
  trace : List Event
  result : Except Exit (Except GoError WorkflowInsight)
  deriving DecidableEq, Repr

/-- Source function `getV2WorkflowInsights`.  A nil response makes
`defer res.Body.Close()` dereference nil.  The status code is not read. -/
def getV2WorkflowInsights (env : Environ) (remote : Remote) : Fetch :=
  match getCircleCIToken env with
  | .error err => ⟨[], .error (.Fatal "failed to read Datadog Config: %w" err)⟩
  | .ok token =>
    let req : Request := ⟨"GET", url, [("Circle-Token", token)]⟩
    match remote req with
    | none => ⟨[.Do req], .error (.Panic "invalid memory address or nil pointer dereference")⟩
    | some res =>
      match jsonUnmarshal res.Body with
      | .error err => ⟨[.Do req], .ok (.error (.Wrap "failed to parse response body" err))⟩
      | .ok m => ⟨[.Do req, .Printf m], .ok (.ok m)⟩

/-! ## `snapshot` -/

/-- The `for _, item := range wfInsight.Items` loop of `snapshot`. -/
def publish : List Item → GaugeVec → GaugeVec
  | [], g => g
  | item :: rest, g => publish rest (GaugeVec.Set g item.Name item.Metrics.SuccessRate)

/-- The `Set` actions of the range loop. -/
def publishTrace (items : List Item) : List Event :=
  items.map (fun item => Event.Set item.Name item.Metrics.SuccessRate)

/-- Outcome of one call of `snapshot`: the registry it leaves, its actions, and
either the end of the process or the returned `error` (`none` is nil). -/
structure Cycle where
  reg : GaugeVec
  trace : List Event
  result : Except Exit (Option GoError)
  deriving DecidableEq, Repr

/-- Source function `snapshot`. -/
def snapshot (env : Environ) (remote : Remote) (g : GaugeVec) : Cycle :=
  let g1 := GaugeVec.Reset g
  let f := getV2WorkflowInsights env remote
  match f.result with
  | .error x => ⟨g1, Event.Reset :: f.trace, .error x⟩
  | .ok (.error err) => ⟨g1, Event.Reset :: f.trace, .error (.Fatal "" err)⟩
  | .ok (.ok wfInsight) =>
    ⟨publish wfInsight.Items g1, Event.Reset :: f.trace ++ publishTrace wfInsight.Items, .ok none⟩

/-! ## `snapshot`, one statement at a time -/

/-- Control point inside `snapshot`. -/
inductive Pc
  /-- Before `successRate.Reset()`. -/
  | entry
  /-- After `Reset`, during `getV2WorkflowInsights()`. -/
  | fetching
  /-- In the range loop, with the items still to publish. -/
  | ranging (rest : List Item)
  /-- Inside `successRate.With(labels).Set(...)` for `item`: `With` has returned the
  child, `Set` has not stored yet. -/
  | storing (item : Item) (rest : List Item)
  /-- After `return nil`. -/
  | returned
  /-- The process has ended. -/
  | exited (x : Exit)
  deriving DecidableEq, Repr

/-- Registry contents together with the control point: what a concurrent scrape of
`/metrics` can observe is `reg`. -/
structure Config where
  reg : GaugeVec
  pc : Pc
  deriving DecidableEq, Repr

/-- One step of `snapshot`, each call on the registry being a step of its own:
`Reset`, the fetch, and for every record first `With` and then `Set`; `none` when
the call is over. -/
def step (env : Environ) (remote : Remote) : Config → Option Config
  | ⟨g, .entry⟩ => some ⟨GaugeVec.Reset g, .fetching⟩
  | ⟨g, .fetching⟩ =>
    match (getV2WorkflowInsights env remote).result with
    | .error x => some ⟨g, .exited x⟩
    | .ok (.error err) => some ⟨g, .exited (.Fatal "" err)⟩
    | .ok (.ok wfInsight) => some ⟨g, .ranging wfInsight.Items⟩
  | ⟨g, .ranging []⟩ => some ⟨g, .returned⟩
  | ⟨g, .ranging (item :: rest)⟩ =>
    some ⟨GaugeVec.With g item.Name, .storing item rest⟩
  | ⟨g, .storing item rest⟩ =>
    some ⟨GaugeVec.store g item.Name item.Metrics.SuccessRate, .ranging rest⟩
  | ⟨_, .returned⟩ => none
  | ⟨_, .exited _⟩ => none

/-- The configuration after `n` steps. -/
def stepN (env : Environ) (remote : Remote) : Nat → Config → Option Config
  | 0, c => some c
  | n + 1, c => (step env remote c).bind (stepN env remote n)

/-- Configurations met during a call of `snapshot` started in `c0`. -/
def Reachable (env : Environ) (remote : Remote) (c0 c : Config) : Prop :=
  ∃ n, stepN env remote n c0 = some c

/-! ## `main` -/

/-- Wrap-around of a product to Go `int64`. -/
def toInt64 (x : Int) : Int := (x + 2 ^ 63) % 2 ^ 64 - 2 ^ 63

/-- The constant `time.Second`, in nanoseconds. -/
def Second : Int := 1000000000

/-- State of the process: the registry, the actions so far, and how it ended
(`none` while it runs). -/
structure Proc where
  reg : GaugeVec
  trace : List Event
  exit : Option Exit
  deriving DecidableEq, Repr

/-- The loop `for range ticker.C` of the background goroutine, entered with the
registry `g` and the actions `tr` so far, given the peer met at each delivered
tick.  The process ends when `snapshot` ends it or returns a non-nil error. -/
def tickLoop (env : Environ) : List Remote → GaugeVec → List Event → Proc
  | [], g, tr => ⟨g, tr, none⟩
  | remote :: rest, g, tr =>
    let c := snapshot env remote g
    match c.result with
    | .error x => ⟨c.reg, tr ++ Event.Tick :: c.trace, some x⟩
    | .ok (some err) => ⟨c.reg, tr ++ Event.Tick :: c.trace, some (.Fatal "" err)⟩
    | .ok none => tickLoop env rest c.reg (tr ++ Event.Tick :: c.trace)

/-- Source function `main`, for the runs in which `http.ListenAndServe` keeps
serving: it blocks the main goroutine for the life of the process.
`time.NewTicker` panics on a non-positive duration. -/
def main (env : Environ) (ticks : List Remote) : Proc :=
  match getInterval env with
  | .error err => ⟨[], [], some (.Fatal "" err)⟩
  | .ok interval =>
    let tr := [Event.MustRegister, Event.Handle "/metrics"]
    let d := toInt64 (toInt64 interval * Second)
    if d ≤ 0 then
      ⟨[], tr, some (.Panic "non-positive interval for NewTicker")⟩
    else
      tickLoop env ticks [] (tr ++ [Event.NewTicker d])

/-! ## Fixtures -/

/-- An environment holding only `CIRCLECI_TOKEN`. -/
def envWithToken : Environ := fun key =>
  if key = "CIRCLECI_TOKEN" then some "secret" else none

/-- An environment with no variable set. -/
def envEmpty : Environ := fun _ => none

/-- An environment holding `CIRCLECI_TOKEN` and the given interval override. -/
def envWithInterval (s : String) : Environ := fun key =>
  if key = "CIRCLECI_TOKEN" then some "secret"
  else if key = "CIRCLECI_API_INTERVAL" then some s else none

/-- A record with the given name and success-rate bits. -/
def mkItem (name : String) (rate : float64) : Item :=
  { Name := name, Metrics := { SuccessRate := rate } }

/-- A peer answering every request with the given status and body. -/
def constRemote (status : Nat) (body : Body) : Remote := fun _ => some ⟨status, body⟩

/-- A peer that cannot be reached. -/
def downRemote : Remote := fun _ => none

/-! ## Reference definitions and fixtures for the properties -/

/-- A fetch returning three records, two of them named `build`. -/
def fetchedDup : WorkflowInsight :=
  { Items := [mkItem "build" 11, mkItem "deploy" 22, mkItem "build" 33] }

/-- The fetch does not hand a record set back. -/
def fetchFails (env : Environ) (remote : Remote) : Bool :=
  match (getV2WorkflowInsights env remote).result with
  | .ok (.ok _) => false
  | _ => true

/-- The request `getV2WorkflowInsights` sends for a given token. -/
def insightsRequest (token : String) : Request :=
  ⟨"GET", url, [("Circle-Token", token)]⟩

/-- A fetch returning one record. -/
def fetchedFirst : WorkflowInsight :=
  { Items := [mkItem "build" 11] }

/-- First page of the three-page fixture. -/
def page1 : WorkflowInsight :=
  { NextPageToken := some "t1", Items := [mkItem "build" 11, mkItem "deploy" 22] }

/-- Second page of the three-page fixture. -/
def page2 : WorkflowInsight :=
  { NextPageToken := some "t2", Items := [mkItem "lint" 33, mkItem "test" 44] }

/-- Last page of the three-page fixture: its token is nil. -/
def page3 : WorkflowInsight :=
  { NextPageToken := none, Items := [mkItem "release" 55] }

/-- The URL of the page after continuation token `t`: `url` with the query
parameter `page-token` set to `t`. -/
def pageURL : Option String → String
  | none => url
  | some t => url ++ "&page-token=" ++ t

/-- A peer serving `page1`, `page2`, `page3` under the tokens nil, `t1`, `t2`. -/
def pagedRemote : Remote := fun req =>
  if req.url = pageURL none then some ⟨200, .decodes page1⟩
  else if req.url = pageURL (some "t1") then some ⟨200, .decodes page2⟩
  else if req.url = pageURL (some "t2") then some ⟨200, .decodes page3⟩
  else some ⟨404, .undecodable⟩

/-- What the specification asks of `fetchAll`, in its words: call the page fetch
repeatedly, thread each response's continuation token into the next request, stop
at a nil token, concatenate the records in response order, and fail as a whole
when a page fails.  `fuel` bounds the number of pages requested. -/
def fetchAll_spec (env : Environ) (remote : Remote) :
    Nat → Option String → Option (List Item)
  | 0, _ => none
  | fuel + 1, token =>
    match remote ⟨"GET", pageURL token, [("Circle-Token", Getenv env "CIRCLECI_TOKEN")]⟩ with
    | none => none
    | some res =>
      match jsonUnmarshal res.Body with
      | .error _ => none
      | .ok page =>
        match page.NextPageToken with
        | none => some page.Items
        | some next => (fetchAll_spec env remote fuel (some next)).map (page.Items ++ ·)

/-- An optional sign `+` or `-` followed by one or more ASCII decimal digits. -/
def isSignedDecimal (s : String) : Bool :=
  match s.toList with
  | [] => false
  | c :: cs =>
    let digits := if c = '+' ∨ c = '-' then cs else c :: cs
    !digits.isEmpty && digits.all (fun d => decide ('0' ≤ d ∧ d ≤ '9'))

/-- Value of a run of decimal digits. -/
def digitsValue (ds : List Char) : Nat :=
  ds.foldl (fun n c => n * 10 + (c.toNat - '0'.toNat)) 0

/-- The integer a signed run of decimal digits stands for. -/
def signedDecimalValue (s : String) : Int :=
  match s.toList with
  | [] => 0
  | c :: cs =>
    if c = '-' then -(digitsValue cs : Int)
    else if c = '+' then (digitsValue cs : Int)
    else (digitsValue (c :: cs) : Int)

/-- The string is the decimal representation of an integer of the `int` range: an
optional sign, one or more decimal digits, and a value from `-2^63` to `2^63 - 1`. -/
def isIntLiteral (s : String) : Bool :=
  isSignedDecimal s &&
    decide (-(2 ^ 63 : Int) ≤ signedDecimalValue s ∧ signedDecimalValue s < 2 ^ 63)

/-! # Properties -/


/-! ## Registry lemmas -/

theorem GaugeVec.mem_names_Set (g : GaugeVec) (name : String) (v : float64) (n : String) :
    n ∈ GaugeVec.names (GaugeVec.Set g name v) ↔ n = name ∨ n ∈ GaugeVec.names g := by
  induction g with
  | nil => simp [GaugeVec.Set, GaugeVec.names]
  | cons e rest ih =>
    obtain ⟨k, w⟩ := e
    by_cases hk : k = name
    · subst hk
      simp [GaugeVec.Set, GaugeVec.names]
    · have ih1 : n ∈ List.map Prod.fst (GaugeVec.Set rest name v) ↔
          n = name ∨ n ∈ List.map Prod.fst rest := ih
      simp only [GaugeVec.Set, GaugeVec.names, hk, if_false, List.map_cons, List.mem_cons, ih1]
      tauto

theorem GaugeVec.nodup_names_Set (g : GaugeVec) (name : String) (v : float64)
    (h : (GaugeVec.names g).Nodup) : (GaugeVec.names (GaugeVec.Set g name v)).Nodup := by
  induction g with
  | nil => simp [GaugeVec.Set, GaugeVec.names]
  | cons e rest ih =>
    obtain ⟨k, w⟩ := e
    have h1 : k ∉ GaugeVec.names rest ∧ (GaugeVec.names rest).Nodup := by
      simpa [GaugeVec.names] using h
    by_cases hk : k = name
    · subst hk
      simpa [GaugeVec.Set, GaugeVec.names] using h
    · have hmem : k ∉ GaugeVec.names (GaugeVec.Set rest name v) := by
        rw [GaugeVec.mem_names_Set]
        rintro (h2 | h2)
        · exact hk h2
        · exact h1.1 h2
      have ih1 := ih h1.2
      simp only [GaugeVec.Set, hk, if_false]
      exact List.nodup_cons.mpr ⟨hmem, ih1⟩

theorem GaugeVec.value_Set_same (g : GaugeVec) (name : String) (v : float64) :
    GaugeVec.value (GaugeVec.Set g name v) name = some v := by
  induction g with
  | nil => simp [GaugeVec.Set, GaugeVec.value]
  | cons e rest ih =>
    obtain ⟨k, w⟩ := e
    by_cases hk : k = name
    · simp [GaugeVec.Set, GaugeVec.value, hk]
    · simp [GaugeVec.Set, GaugeVec.value, hk, ih]

theorem GaugeVec.value_Set_other (g : GaugeVec) (name : String) (v : float64) (n : String)
    (hn : name ≠ n) : GaugeVec.value (GaugeVec.Set g name v) n = GaugeVec.value g n := by
  induction g with
  | nil => simp [GaugeVec.Set, GaugeVec.value, hn]
  | cons e rest ih =>
    obtain ⟨k, w⟩ := e
    by_cases hk : k = name
    · subst hk
      simp [GaugeVec.Set, GaugeVec.value, hn]
    · by_cases hkn : k = n
      · subst hkn
        simp [GaugeVec.Set, GaugeVec.value, hk]
      · simp [GaugeVec.Set, GaugeVec.value, hk, hkn, ih]

/-! ## The range loop -/

theorem publish_append (xs ys : List Item) (g : GaugeVec) :
    publish (xs ++ ys) g = publish ys (publish xs g) := by
  induction xs generalizing g with
  | nil => rfl
  | cons x xs ih => simp [publish, ih]

theorem mem_names_publish (items : List Item) (g : GaugeVec) (n : String) :
    n ∈ GaugeVec.names (publish items g) ↔
      n ∈ GaugeVec.names g ∨ n ∈ items.map Item.Name := by
  induction items generalizing g with
  | nil => simp [publish]
  | cons x xs ih =>
    simp only [publish, ih, GaugeVec.mem_names_Set, List.map_cons, List.mem_cons]
    tauto

theorem nodup_names_publish (items : List Item) (g : GaugeVec)
    (h : (GaugeVec.names g).Nodup) : (GaugeVec.names (publish items g)).Nodup := by
  induction items generalizing g with
  | nil => simpa [publish] using h
  | cons x xs ih => exact ih _ (GaugeVec.nodup_names_Set g _ _ h)

theorem value_publish_of_not_mem (items : List Item) (g : GaugeVec) (n : String)
    (h : ∀ j ∈ items, j.Name ≠ n) :
    GaugeVec.value (publish items g) n = GaugeVec.value g n := by
  induction items generalizing g with
  | nil => rfl
  | cons x xs ih =>
    have hx : x.Name ≠ n := h x (List.mem_cons_self _ _)
    have hxs : ∀ j ∈ xs, j.Name ≠ n := fun j hj => h j (List.mem_cons_of_mem _ hj)
    simp only [publish]
    rw [ih _ hxs, GaugeVec.value_Set_other _ _ _ _ hx]

theorem value_publish_last (pre post : List Item) (item : Item) (g : GaugeVec)
    (h : ∀ j ∈ post, j.Name ≠ item.Name) :
    GaugeVec.value (publish (pre ++ item :: post) g) item.Name =
      some item.Metrics.SuccessRate := by
  rw [publish_append]
  simp only [publish]
  rw [value_publish_of_not_mem _ _ _ h, GaugeVec.value_Set_same]

/-! ## `snapshot` after a successful fetch -/

theorem snapshot_of_fetch_ok (env : Environ) (remote : Remote) (g : GaugeVec)
    (m : WorkflowInsight) (h : (getV2WorkflowInsights env remote).result = .ok (.ok m)) :
    snapshot env remote g =
      ⟨publish m.Items [],
        Event.Reset :: (getV2WorkflowInsights env remote).trace ++ publishTrace m.Items,
        .ok none⟩ := by
  simp [snapshot, h, GaugeVec.Reset]

/-- C1: for every prior registry and every record list returned by a successful
fetch, `snapshot` returns, and the label values then in the registry are exactly
the distinct names of the fetched records, each exported once. -/
theorem C1_registry_names_are_fetched_names (env : Environ) (remote : Remote)
    (g : GaugeVec) (m : WorkflowInsight)
    (h : (getV2WorkflowInsights env remote).result = .ok (.ok m)) :
    (snapshot env remote g).result = .ok none ∧
      (GaugeVec.names (snapshot env remote g).reg).toFinset =
        (m.Items.map Item.Name).toFinset ∧
      (GaugeVec.names (snapshot env remote g).reg).Nodup := by
  rw [snapshot_of_fetch_ok env remote g m h]
  refine ⟨rfl, ?_, ?_⟩
  · ext n
    simp only [List.mem_toFinset, mem_names_publish]
    simp [GaugeVec.names]
  · exact nodup_names_publish _ _ (by simp [GaugeVec.names])

/-- The property of C1 at a concrete run, its hypotheses discharged there. -/
theorem C1_witness :
    (getV2WorkflowInsights envWithToken (constRemote 200 (.decodes fetchedDup))).result =
        .ok (.ok fetchedDup) ∧
      ((snapshot envWithToken (constRemote 200 (.decodes fetchedDup)) [("stale", 7)]).result =
          .ok none ∧
        (GaugeVec.names
            (snapshot envWithToken (constRemote 200 (.decodes fetchedDup))
              [("stale", 7)]).reg).toFinset =
          (fetchedDup.Items.map Item.Name).toFinset ∧
        (GaugeVec.names
            (snapshot envWithToken (constRemote 200 (.decodes fetchedDup))
              [("stale", 7)]).reg).Nodup) :=
  ⟨by decide,
    C1_registry_names_are_fetched_names envWithToken (constRemote 200 (.decodes fetchedDup))
      [("stale", 7)] fetchedDup (by decide)⟩

/-- A name that occurs in a record list has a last occurrence. -/
theorem exists_last_occurrence (items : List Item) (name : String)
    (h : name ∈ items.map Item.Name) :
    ∃ pre item post, items = pre ++ item :: post ∧ item.Name = name ∧
      ∀ j ∈ post, j.Name ≠ name := by
  induction items with
  | nil => simp at h
  | cons x xs ih =>
    by_cases hxs : name ∈ xs.map Item.Name
    · obtain ⟨pre, item, post, hsplit, hname, hlast⟩ := ih hxs
      exact ⟨x :: pre, item, post, by rw [hsplit]; rfl, hname, hlast⟩
    · have hx : x.Name = name := by
        have h0 : name ∈ x.Name :: xs.map Item.Name := by simpa using h
        rcases List.mem_cons.mp h0 with h1 | h1
        · exact h1.symm
        · exact absurd h1 hxs
      refine ⟨[], x, xs, rfl, hx, ?_⟩
      intro j hj hjn
      exact hxs (List.mem_map.mpr ⟨j, hj, hjn⟩)

/-- C2: after a successful fetch, for every name occurring in the fetched record
list, the value the registry holds for that name is the `success_rate` of the last
record with that name in fetch order, bit for bit. -/
theorem C2_value_is_last_occurrence (env : Environ) (remote : Remote) (g : GaugeVec)
    (m : WorkflowInsight) (name : String)
    (h : (getV2WorkflowInsights env remote).result = .ok (.ok m))
    (hname : name ∈ m.Items.map Item.Name) :
    ∃ pre item post, m.Items = pre ++ item :: post ∧ item.Name = name ∧
      (∀ j ∈ post, j.Name ≠ name) ∧
      GaugeVec.value (snapshot env remote g).reg name = some item.Metrics.SuccessRate := by
  obtain ⟨pre, item, post, hsplit, hitem, hlast⟩ := exists_last_occurrence m.Items name hname
  refine ⟨pre, item, post, hsplit, hitem, hlast, ?_⟩
  rw [snapshot_of_fetch_ok env remote g m h]
  show GaugeVec.value (publish m.Items []) name = some item.Metrics.SuccessRate
  rw [hsplit, ← hitem]
  exact value_publish_last pre post item [] (by rw [hitem]; exact hlast)

/-- The property of C2 at a concrete run, its hypotheses discharged there. -/
theorem C2_witness :
    (getV2WorkflowInsights envWithToken (constRemote 200 (.decodes fetchedDup))).result =
        .ok (.ok fetchedDup) ∧
      "build" ∈ fetchedDup.Items.map Item.Name ∧
      ∃ pre item post, fetchedDup.Items = pre ++ item :: post ∧ item.Name = "build" ∧
        (∀ j ∈ post, j.Name ≠ "build") ∧
        GaugeVec.value
            (snapshot envWithToken (constRemote 200 (.decodes fetchedDup)) [("build", 7)]).reg
            "build" = some item.Metrics.SuccessRate :=
  ⟨by decide, by decide,
    C2_value_is_last_occurrence envWithToken (constRemote 200 (.decodes fetchedDup))
      [("build", 7)] fetchedDup "build" (by decide) (by decide)⟩

/-! ## `snapshot` after a failed fetch -/

theorem length_eq_zero_iff (s : String) : s.length = 0 ↔ s = "" := by
  obtain ⟨l⟩ := s
  cases l with
  | nil => exact ⟨fun _ => rfl, fun _ => rfl⟩
  | cons c cs =>
    constructor
    · intro h
      simp [String.length] at h
    · intro h
      have h1 := congrArg String.data h
      simp at h1

/-- A fetch fails exactly when the credential is missing, the transport fails, or
the body does not decode. -/
theorem fetchFails_iff (env : Environ) (remote : Remote) :
    fetchFails env remote = true ↔
      Getenv env "CIRCLECI_TOKEN" = "" ∨
      remote (insightsRequest (Getenv env "CIRCLECI_TOKEN")) = none ∨
      ∃ status, remote (insightsRequest (Getenv env "CIRCLECI_TOKEN")) =
        some ⟨status, .undecodable⟩ := by
  unfold fetchFails getV2WorkflowInsights getCircleCIToken insightsRequest
  by_cases ht : Getenv env "CIRCLECI_TOKEN" = ""
  · simp [ht]
  · have hlen : (Getenv env "CIRCLECI_TOKEN").length ≠ 0 := by
      intro h0
      exact ht ((length_eq_zero_iff _).mp h0)
    simp only [hlen, if_false, ht, false_or]
    cases hr : remote ⟨"GET", url, [("Circle-Token", Getenv env "CIRCLECI_TOKEN")]⟩ with
    | none => simp
    | some res =>
      obtain ⟨status, body⟩ := res
      cases body with
      | undecodable => simp [jsonUnmarshal]
      | decodes m => simp [jsonUnmarshal]

/-- The only actions of a fetch are the request for the first page, which
carries no `page-token`, and the print of the decoded value. -/
theorem fetch_trace_events (env : Environ) (remote : Remote) :
    ∀ e ∈ (getV2WorkflowInsights env remote).trace,
      e = Event.Do (insightsRequest (Getenv env "CIRCLECI_TOKEN")) ∨ ∃ m, e = Event.Printf m := by
  intro e he
  simp only [getV2WorkflowInsights, getCircleCIToken] at he
  split at he
  · simp at he
  · rename_i token htoken
    have htok : token = Getenv env "CIRCLECI_TOKEN" := by
      split at htoken
      · cases htoken
      · cases htoken
        rfl
    subst htok
    split at he
    · simp at he
      exact Or.inl he
    · split at he
      · simp at he
        exact Or.inl he
      · simp at he
        rcases he with he | he
        · exact Or.inl he
        · exact Or.inr ⟨_, he⟩

theorem snapshot_of_fetchFails (env : Environ) (remote : Remote) (g : GaugeVec)
    (h : fetchFails env remote = true) :
    (snapshot env remote g).reg = [] ∧
      (snapshot env remote g).trace = Event.Reset :: (getV2WorkflowInsights env remote).trace ∧
      ∃ x, (snapshot env remote g).result = .error x := by
  cases hres : (getV2WorkflowInsights env remote).result with
  | error x => simp [snapshot, hres, GaugeVec.Reset]
  | ok r =>
    cases r with
    | error err => simp [snapshot, hres, GaugeVec.Reset]
    | ok m => simp [fetchFails, hres] at h

/-- C3 (as amended): for every prior registry, a snapshot cycle whose fetch fails
leaves the registry empty, `Reset` having run before the fetch, performs no `Set`,
and ends the process. -/
theorem C3_failed_fetch_leaves_registry_empty (env : Environ) (remote : Remote)
    (g : GaugeVec) (h : fetchFails env remote = true) :
    (snapshot env remote g).reg = [] ∧
      (∀ name v, Event.Set name v ∉ (snapshot env remote g).trace) ∧
      ∃ x, (snapshot env remote g).result = .error x := by
  obtain ⟨hreg, htrace, hexit⟩ := snapshot_of_fetchFails env remote g h
  refine ⟨hreg, ?_, hexit⟩
  intro name v hmem
  rw [htrace] at hmem
  rcases List.mem_cons.mp hmem with h1 | h1
  · cases h1
  · rcases fetch_trace_events env remote _ h1 with h2 | ⟨m, h2⟩ <;> cases h2

/-- The property of C3 at a concrete run, its hypotheses discharged there. -/
theorem C3_witness :
    fetchFails envWithToken (constRemote 200 .undecodable) = true ∧
      ((snapshot envWithToken (constRemote 200 .undecodable) [("build", 7)]).reg = [] ∧
        (∀ name v, Event.Set name v ∉
          (snapshot envWithToken (constRemote 200 .undecodable) [("build", 7)]).trace) ∧
        ∃ x, (snapshot envWithToken (constRemote 200 .undecodable) [("build", 7)]).result =
          .error x) :=
  ⟨by decide,
    C3_failed_fetch_leaves_registry_empty envWithToken (constRemote 200 .undecodable)
      [("build", 7)] (by decide)⟩

/-- C3 fails as stated: with `build` exported by the prior state, a cycle whose
fetch fails (undecodable body, unreachable peer, or missing credential) leaves a
registry different from the prior state. -/
theorem C3_counterexample :
    (fetchFails envWithToken (constRemote 200 .undecodable) = true ∧
      (snapshot envWithToken (constRemote 200 .undecodable) [("build", 7)]).reg ≠
        [("build", 7)]) ∧
    (fetchFails envWithToken downRemote = true ∧
      (snapshot envWithToken downRemote [("build", 7)]).reg ≠ [("build", 7)]) ∧
    (fetchFails envEmpty (constRemote 200 (.decodes fetchedDup)) = true ∧
      (snapshot envEmpty (constRemote 200 (.decodes fetchedDup)) [("build", 7)]).reg ≠
        [("build", 7)]) :=
  ⟨⟨by decide, by decide⟩, ⟨by decide, by decide⟩,
    ⟨by decide, by decide⟩⟩

/-! ## The statements of `snapshot` as a transition system -/

theorem stepN_returned (env : Environ) (remote : Remote) (n : Nat) (g : GaugeVec) (c : Config)
    (h : stepN env remote n ⟨g, .returned⟩ = some c) : c.reg = g := by
  cases n with
  | zero =>
    simp only [stepN, Option.some.injEq] at h
    rw [← h]
  | succ n => simp [stepN, step] at h

theorem stepN_exited (env : Environ) (remote : Remote) (n : Nat) (g : GaugeVec) (x : Exit)
    (c : Config) (h : stepN env remote n ⟨g, .exited x⟩ = some c) : c.reg = g := by
  cases n with
  | zero =>
    simp only [stepN, Option.some.injEq] at h
    rw [← h]
  | succ n => simp [stepN, step] at h

theorem GaugeVec.Set_eq_store_With (g : GaugeVec) (name : String) (v : float64) :
    GaugeVec.Set g name v = GaugeVec.store (GaugeVec.With g name) name v := by
  induction g with
  | nil => simp [GaugeVec.Set, GaugeVec.With, GaugeVec.store]
  | cons e rest ih =>
    obtain ⟨k, w⟩ := e
    by_cases hk : k = name
    · simp [GaugeVec.Set, GaugeVec.With, GaugeVec.store, hk]
    · simp [GaugeVec.Set, GaugeVec.With, GaugeVec.store, hk, ih]

/-- Inside the range loop over `items` entered with registry `g`, the registry is
what the loop has published from a prefix of `items`, possibly with the child of
the next record looked up or created by `With` and not yet stored to. -/
theorem stepN_loop (env : Environ) (remote : Remote) (n : Nat) :
    (∀ items g c, stepN env remote n ⟨g, .ranging items⟩ = some c →
      (∃ pre post, items = pre ++ post ∧ c.reg = publish pre g) ∨
        ∃ pre item post, items = pre ++ item :: post ∧
          c.reg = GaugeVec.With (publish pre g) item.Name) ∧
    (∀ item rest g c,
      stepN env remote n ⟨GaugeVec.With g item.Name, .storing item rest⟩ = some c →
      (∃ pre post, item :: rest = pre ++ post ∧ c.reg = publish pre g) ∨
        ∃ pre it post, item :: rest = pre ++ it :: post ∧
          c.reg = GaugeVec.With (publish pre g) it.Name) := by
  induction n with
  | zero =>
    constructor
    · intro items g c h
      simp only [stepN, Option.some.injEq] at h
      exact Or.inl ⟨[], items, rfl, by rw [← h]; rfl⟩
    · intro item rest g c h
      simp only [stepN, Option.some.injEq] at h
      exact Or.inr ⟨[], item, rest, rfl, by rw [← h]; rfl⟩
  | succ n ih =>
    constructor
    · intro items g c h
      cases items with
      | nil =>
        simp only [stepN, step, Option.some_bind] at h
        exact Or.inl ⟨[], [], rfl, by rw [stepN_returned env remote n g c h]; rfl⟩
      | cons x xs =>
        simp only [stepN, step, Option.some_bind] at h
        exact ih.2 x xs g c h
    · intro item rest g c h
      simp only [stepN, step, Option.some_bind] at h
      rw [← GaugeVec.Set_eq_store_With] at h
      rcases ih.1 rest _ c h with ⟨pre, post, hsplit, hreg⟩ | ⟨pre, it, post, hsplit, hreg⟩
      · exact Or.inl ⟨item :: pre, post, by rw [hsplit]; rfl, by rw [hreg]; rfl⟩
      · exact Or.inr ⟨item :: pre, it, post, by rw [hsplit]; rfl, by rw [hreg]; rfl⟩

/-- The range loop, run to its end, leaves `publish items g` and returns. -/
theorem stepN_publish (env : Environ) (remote : Remote) (items : List Item) (g : GaugeVec) :
    ∃ n, stepN env remote n ⟨g, .ranging items⟩ = some ⟨publish items g, .returned⟩ := by
  induction items generalizing g with
  | nil => exact ⟨1, rfl⟩
  | cons x xs ih =>
    obtain ⟨n, hn⟩ := ih (GaugeVec.Set g x.Name x.Metrics.SuccessRate)
    refine ⟨n + 1 + 1, ?_⟩
    have hsucc : ∀ k c0, stepN env remote (k + 1) c0 =
        (step env remote c0).bind (stepN env remote k) := fun _ _ => rfl
    rw [hsucc]
    simp only [step, Option.some_bind]
    rw [hsucc]
    simp only [step, Option.some_bind]
    rw [← GaugeVec.Set_eq_store_With]
    exact hn

/-- The function `snapshot` is the run of its steps to the end. -/
theorem snapshot_is_run_of_steps (env : Environ) (remote : Remote) (g : GaugeVec) :
    ∃ n, stepN env remote n ⟨g, .entry⟩ =
      some ⟨(snapshot env remote g).reg,
        match (snapshot env remote g).result with
        | .error x => .exited x
        | .ok _ => .returned⟩ := by
  cases hres : (getV2WorkflowInsights env remote).result with
  | error x =>
    exact ⟨2, by simp [stepN, step, snapshot, hres]⟩
  | ok r =>
    cases r with
    | error err => exact ⟨2, by simp [stepN, step, snapshot, hres]⟩
    | ok m =>
      obtain ⟨n, h⟩ := stepN_publish env remote m.Items (GaugeVec.Reset g)
      refine ⟨n + 1 + 1, ?_⟩
      have hfetch : step env remote ⟨GaugeVec.Reset g, .fetching⟩ =
          some ⟨GaugeVec.Reset g, .ranging m.Items⟩ := by
        simp [step, hres]
      have hentry : step env remote ⟨g, .entry⟩ = some ⟨GaugeVec.Reset g, .fetching⟩ := rfl
      have hsucc : ∀ k c0, stepN env remote (k + 1) c0 =
          (step env remote c0).bind (stepN env remote k) := fun _ _ => rfl
      rw [hsucc, hentry, Option.some_bind, hsucc, hfetch, Option.some_bind, h]
      simp [snapshot, hres]

/-- C4 (as amended): the empty registry is reachable inside every cycle, right
after `Reset` and for the whole fetch; every registry state reachable inside a
cycle is the prior mapping, the empty mapping, the mapping published from a prefix
of the newly fetched records (the whole list giving the new complete mapping), or
such a mapping after `With` has looked up the child of the next record, creating
it with value 0 when its name was not yet exported, and before `Set` has stored. -/
theorem C4_reachable_registry_states (env : Environ) (remote : Remote) (g : GaugeVec) :
    Reachable env remote ⟨g, .entry⟩ ⟨[], .fetching⟩ ∧
      ∀ c, Reachable env remote ⟨g, .entry⟩ c →
        c.reg = g ∨ c.reg = [] ∨
          ∃ m, (getV2WorkflowInsights env remote).result = .ok (.ok m) ∧
            ((∃ pre post, m.Items = pre ++ post ∧ c.reg = publish pre []) ∨
              ∃ pre item post, m.Items = pre ++ item :: post ∧
                c.reg = GaugeVec.With (publish pre []) item.Name) := by
  refine ⟨⟨1, rfl⟩, ?_⟩
  rintro c ⟨n, hn⟩
  cases n with
  | zero =>
    simp only [stepN, Option.some.injEq] at hn
    exact Or.inl (by rw [← hn])
  | succ n =>
    simp only [stepN, step, Option.some_bind, GaugeVec.Reset] at hn
    cases n with
    | zero =>
      simp only [stepN, Option.some.injEq] at hn
      exact Or.inr (Or.inl (by rw [← hn]))
    | succ n =>
      simp only [stepN, step] at hn
      cases hres : (getV2WorkflowInsights env remote).result with
      | error x =>
        simp only [hres, Option.some_bind] at hn
        exact Or.inr (Or.inl (stepN_exited env remote n [] x c hn))
      | ok r =>
        cases r with
        | error err =>
          simp only [hres, Option.some_bind] at hn
          exact Or.inr (Or.inl (stepN_exited env remote n [] _ c hn))
        | ok m =>
          simp only [hres, Option.some_bind] at hn
          exact Or.inr (Or.inr ⟨m, rfl, (stepN_loop env remote n).1 m.Items [] c hn⟩)

/-- The property of C4 at a concrete run, its hypotheses discharged there. -/
theorem C4_witness :
    Reachable envWithToken (constRemote 200 (.decodes fetchedDup))
        ⟨[("build", 11)], .entry⟩
        ⟨[("build", 11), ("deploy", 0)], .storing (mkItem "deploy" 22) [mkItem "build" 33]⟩ ∧
      (([("build", 11), ("deploy", 0)] : GaugeVec) = [("build", 11)] ∨
        ([("build", 11), ("deploy", 0)] : GaugeVec) = [] ∨
        ∃ m,
          (getV2WorkflowInsights envWithToken (constRemote 200 (.decodes fetchedDup))).result =
              .ok (.ok m) ∧
            ((∃ pre post, m.Items = pre ++ post ∧
                ([("build", 11), ("deploy", 0)] : GaugeVec) = publish pre []) ∨
              ∃ pre item post, m.Items = pre ++ item :: post ∧
                ([("build", 11), ("deploy", 0)] : GaugeVec) =
                  GaugeVec.With (publish pre []) item.Name)) :=
  ⟨⟨5, by decide⟩,
    (C4_reachable_registry_states envWithToken (constRemote 200 (.decodes fetchedDup))
      [("build", 11)]).2
      ⟨[("build", 11), ("deploy", 0)], .storing (mkItem "deploy" 22) [mkItem "build" 33]⟩
      ⟨5, by decide⟩⟩

/-- C4 fails as stated: a first cycle completes with the non-empty record list
`fetchedFirst` and leaves `build` exported; in the next cycle, which also
succeeds, the registry is empty after `Reset`, then exports `build` at 0, and
later `build` and `deploy` at values that are neither the previous complete
mapping nor the new one. -/
theorem C4_counterexample :
    fetchedFirst.Items ≠ [] ∧
    (snapshot envWithToken (constRemote 200 (.decodes fetchedFirst)) []).result = .ok none ∧
    (snapshot envWithToken (constRemote 200 (.decodes fetchedFirst)) []).reg = [("build", 11)] ∧
    (snapshot envWithToken (constRemote 200 (.decodes fetchedDup)) [("build", 11)]).reg =
      [("build", 33), ("deploy", 22)] ∧
    Reachable envWithToken (constRemote 200 (.decodes fetchedDup))
      ⟨[("build", 11)], .entry⟩ ⟨[], .fetching⟩ ∧
    Reachable envWithToken (constRemote 200 (.decodes fetchedDup))
      ⟨[("build", 11)], .entry⟩
      ⟨[("build", 0)], .storing (mkItem "build" 11) [mkItem "deploy" 22, mkItem "build" 33]⟩ ∧
    Reachable envWithToken (constRemote 200 (.decodes fetchedDup))
      ⟨[("build", 11)], .entry⟩
      ⟨[("build", 11), ("deploy", 22)], .ranging [mkItem "build" 33]⟩ :=
  ⟨by decide, by decide, by decide, by decide, ⟨1, by decide⟩, ⟨3, by decide⟩, ⟨6, by decide⟩⟩

/-! ## The ticker loop -/

theorem tickLoop_of_fetch_ok (env : Environ) (remote : Remote) (rest : List Remote)
    (g : GaugeVec) (tr : List Event) (m : WorkflowInsight)
    (h : (getV2WorkflowInsights env remote).result = .ok (.ok m)) :
    tickLoop env (remote :: rest) g tr =
      tickLoop env rest (publish m.Items [])
        (tr ++ Event.Tick :: Event.Reset ::
          (getV2WorkflowInsights env remote).trace ++ publishTrace m.Items) := by
  simp [tickLoop, snapshot_of_fetch_ok env remote g m h]

theorem tickLoop_of_fetchFails (env : Environ) (remote : Remote)
    (g : GaugeVec) (tr : List Event) (h : fetchFails env remote = true) :
    ∃ x, ∀ rest, tickLoop env (remote :: rest) g tr =
      ⟨[], tr ++ Event.Tick :: Event.Reset :: (getV2WorkflowInsights env remote).trace,
        some x⟩ := by
  obtain ⟨hreg, htrace, x, hx⟩ := snapshot_of_fetchFails env remote g h
  exact ⟨x, fun rest => by simp [tickLoop, hx, hreg, htrace]⟩

theorem tickLoop_stops_at_failed_tick (env : Environ) (pre : List Remote) (bad : Remote)
    (rest : List Remote) (g : GaugeVec) (tr : List Event)
    (h : fetchFails env bad = true) :
    (tickLoop env (pre ++ bad :: rest) g tr).exit ≠ none ∧
      tickLoop env (pre ++ bad :: rest) g tr = tickLoop env (pre ++ [bad]) g tr := by
  induction pre generalizing g tr with
  | nil =>
    obtain ⟨x, hx⟩ := tickLoop_of_fetchFails env bad g tr h
    simp only [List.nil_append]
    rw [hx rest, hx []]
    simp
  | cons p pre ih =>
    simp only [List.cons_append, tickLoop]
    split
    · simp
    · simp
    · exact ih _ _

/-- C6 (as amended): for every sequence of ticks, a tick whose fetch fails ends
the process; the ticks after it run nothing, the whole run being the run in which
they are never delivered. -/
theorem C6_failed_tick_terminates_scheduler (env : Environ) (pre : List Remote)
    (bad : Remote) (rest : List Remote) (h : fetchFails env bad = true) :
    (main env (pre ++ bad :: rest)).exit ≠ none ∧
      main env (pre ++ bad :: rest) = main env (pre ++ [bad]) := by
  unfold main
  cases getInterval env with
  | error err => simp
  | ok interval =>
    simp only
    split
    · simp
    · exact tickLoop_stops_at_failed_tick env pre bad rest _ _ h

/-- The property of C6 at a concrete run, its hypotheses discharged there. -/
theorem C6_witness :
    fetchFails envWithToken (constRemote 200 .undecodable) = true ∧
      ((main envWithToken
          ([constRemote 200 (.decodes fetchedFirst)] ++ constRemote 200 .undecodable ::
            [constRemote 200 (.decodes fetchedDup)])).exit ≠ none ∧
        main envWithToken
            ([constRemote 200 (.decodes fetchedFirst)] ++ constRemote 200 .undecodable ::
              [constRemote 200 (.decodes fetchedDup)]) =
          main envWithToken
            ([constRemote 200 (.decodes fetchedFirst)] ++ [constRemote 200 .undecodable])) :=
  ⟨by decide,
    C6_failed_tick_terminates_scheduler envWithToken [constRemote 200 (.decodes fetchedFirst)]
      (constRemote 200 .undecodable) [constRemote 200 (.decodes fetchedDup)] (by decide)⟩

/-- C6 fails as stated: with the credential present, a first tick whose response
body does not decode ends the process with `log.Fatal`; the second tick, whose
fetch would succeed, never runs `snapshot`. -/
theorem C6_counterexample :
    getCircleCIToken envWithToken = .ok "secret" ∧
    main envWithToken [constRemote 200 .undecodable, constRemote 200 (.decodes fetchedDup)] =
      ⟨[],
        [Event.MustRegister, Event.Handle "/metrics", Event.NewTicker 300000000000,
          Event.Tick, Event.Reset, Event.Do (insightsRequest "secret")],
        some (.Fatal "" (.Wrap "failed to parse response body" .Unmarshal))⟩ := by
  decide

/-! ## Missing credential -/

theorem fetch_of_missing_token (env : Environ) (remote : Remote)
    (h : Getenv env "CIRCLECI_TOKEN" = "") :
    getV2WorkflowInsights env remote =
      ⟨[], .error (.Fatal "failed to read Datadog Config: %w"
        (.Errorf "missing environment variable CIRCLECI_TOKEN"))⟩ := by
  simp [getV2WorkflowInsights, getCircleCIToken, h]

/-- C7 (as amended): with the credential absent or empty and a valid interval,
`main` creates the ticker and the process keeps running until a tick is delivered;
at the first tick it ends inside `getV2WorkflowInsights`, after `Reset` and before
any outbound HTTP request. -/
theorem C7_missing_credential_ends_at_first_tick (env : Environ) (interval : Int)
    (h : Getenv env "CIRCLECI_TOKEN" = "") (hi : getInterval env = .ok interval)
    (hd : 0 < toInt64 (toInt64 interval * Second)) :
    main env [] =
        ⟨[], [Event.MustRegister, Event.Handle "/metrics",
          Event.NewTicker (toInt64 (toInt64 interval * Second))], none⟩ ∧
      ∀ remote rest, main env (remote :: rest) =
        ⟨[], [Event.MustRegister, Event.Handle "/metrics",
            Event.NewTicker (toInt64 (toInt64 interval * Second)), Event.Tick, Event.Reset],
          some (.Fatal "failed to read Datadog Config: %w"
            (.Errorf "missing environment variable CIRCLECI_TOKEN"))⟩ := by
  have hd1 : ¬ toInt64 (toInt64 interval * Second) ≤ 0 := not_le.mpr hd
  refine ⟨by simp [main, hi, hd1, tickLoop], ?_⟩
  intro remote rest
  simp [main, hi, hd1, tickLoop, snapshot, fetch_of_missing_token env remote h, GaugeVec.Reset]

/-- The property of C7 at a concrete run, its hypotheses discharged there. -/
theorem C7_witness :
    Getenv envEmpty "CIRCLECI_TOKEN" = "" ∧ getInterval envEmpty = .ok 300 ∧
      0 < toInt64 (toInt64 300 * Second) ∧
      (main envEmpty [] =
          ⟨[], [Event.MustRegister, Event.Handle "/metrics",
            Event.NewTicker (toInt64 (toInt64 300 * Second))], none⟩ ∧
        ∀ remote rest, main envEmpty (remote :: rest) =
          ⟨[], [Event.MustRegister, Event.Handle "/metrics",
              Event.NewTicker (toInt64 (toInt64 300 * Second)), Event.Tick, Event.Reset],
            some (.Fatal "failed to read Datadog Config: %w"
              (.Errorf "missing environment variable CIRCLECI_TOKEN"))⟩) :=
  ⟨by decide, by decide, by decide,
    C7_missing_credential_ends_at_first_tick envEmpty 300 (by decide) (by decide) (by decide)⟩

/-- C7 fails as stated: with no variable set, `main` has created the ticker
(300 s) before the process ends, and until a tick is delivered it has not ended. -/
theorem C7_counterexample :
    envEmpty "CIRCLECI_TOKEN" = none ∧
    (main envEmpty []).exit = none ∧
    Event.NewTicker 300000000000 ∈ (main envEmpty []).trace ∧
    (main envEmpty [downRemote]).trace =
      [Event.MustRegister, Event.Handle "/metrics", Event.NewTicker 300000000000,
        Event.Tick, Event.Reset] := by
  decide

/-! ## The response status -/

/-- C10 (as amended): for every response the client receives, whatever its
status, `getV2WorkflowInsights` returns the decoded record set with a nil error
when the body decodes, and the wrapped decoding error when it does not; the
status is not read and no returned error carries it. -/
theorem C10_result_ignores_status (env : Environ) (remote : Remote) (token : String)
    (status : Nat) (body : Body) (ht : getCircleCIToken env = .ok token)
    (hr : remote (insightsRequest token) = some ⟨status, body⟩) :
    (getV2WorkflowInsights env remote).result =
      match body with
      | .decodes m => .ok (.ok m)
      | .undecodable => .ok (.error (.Wrap "failed to parse response body" .Unmarshal)) := by
  unfold insightsRequest at hr
  cases body with
  | undecodable => simp [getV2WorkflowInsights, ht, hr, jsonUnmarshal, insightsRequest]
  | decodes m => simp [getV2WorkflowInsights, ht, hr, jsonUnmarshal, insightsRequest]

/-- The property of C10 at a concrete run, its hypotheses discharged there. -/
theorem C10_witness :
    getCircleCIToken envWithToken = .ok "secret" ∧
      constRemote 500 (.decodes fetchedDup) (insightsRequest "secret") =
        some ⟨500, .decodes fetchedDup⟩ ∧
      (getV2WorkflowInsights envWithToken (constRemote 500 (.decodes fetchedDup))).result =
        .ok (.ok fetchedDup) :=
  ⟨by decide, by decide,
    C10_result_ignores_status envWithToken (constRemote 500 (.decodes fetchedDup)) "secret" 500
      (.decodes fetchedDup) (by decide) (by decide)⟩

/-- C10 fails as stated: for a 404 response whose body is a JSON object that
decodes (into the zero value, as `{"message":"Not Found"}` does), the function
returns that decoded value with a nil error. -/
theorem C10_counterexample :
    isSuccessStatus 404 = false ∧
    (getV2WorkflowInsights envWithToken (constRemote 404 (.decodes {}))).result =
      .ok (.ok {}) := by
  decide

/-! ## Pagination -/

/-- C5: on the three-page fixture (2, 2 and 1 records, nil final token) the code
sends the single request for the first page and returns its 2 records, and the
registry then exports 2 names; threading the tokens yields the 5 records. -/
theorem C5_fetch_returns_first_page_only :
    getV2WorkflowInsights envWithToken pagedRemote =
        ⟨[Event.Do (insightsRequest "secret"), Event.Printf page1], .ok (.ok page1)⟩ ∧
      page1.Items = [mkItem "build" 11, mkItem "deploy" 22] ∧
      (snapshot envWithToken pagedRemote []).reg = [("build", 11), ("deploy", 22)] ∧
      fetchAll_spec envWithToken pagedRemote 3 none =
        some [mkItem "build" 11, mkItem "deploy" 22, mkItem "lint" 33, mkItem "test" 44,
          mkItem "release" 55] := by
  decide

/-! ## The interval override -/

theorem parseUintLoop_error (ds : List Char) (n : Nat)
    (h : ds.all (fun d => decide ('0' ≤ d ∧ d ≤ '9')) = false) :
    ∃ e, parseUintLoop ds n = .error e := by
  induction ds generalizing n with
  | nil => simp at h
  | cons d ds ih =>
    by_cases hd : '0' ≤ d ∧ d ≤ '9'
    · have h1 : ds.all (fun d => decide ('0' ≤ d ∧ d ≤ '9')) = false := by
        simpa [List.all_cons, hd] using h
      simp only [parseUintLoop, hd, and_self, if_true]
      split
      · exact ⟨_, rfl⟩
      · split
        · exact ⟨_, rfl⟩
        · exact ih _ h1
    · exact ⟨.ErrSyntax, by simp [parseUintLoop, hd]⟩

theorem Atoi_error (s : String) (h : isSignedDecimal s = false) :
    ∃ e, Atoi s = .error (.NumError "Atoi" s e) := by
  unfold Atoi
  unfold isSignedDecimal at h
  cases hs : s.toList with
  | nil => exact ⟨_, rfl⟩
  | cons c cs =>
    simp only [hs] at h
    simp only
    cases hds : (if c = '+' ∨ c = '-' then cs else c :: cs) with
    | nil => exact ⟨_, rfl⟩
    | cons d ds =>
      rw [hds] at h
      have hall : (d :: ds).all (fun d => decide ('0' ≤ d ∧ d ≤ '9')) = false := by
        simpa using h
      obtain ⟨e, he⟩ := parseUintLoop_error (d :: ds) 0 hall
      exact ⟨e, by simp only [he]⟩

theorem parseUintLoop_ok_value (ds : List Char) (n un : Nat)
    (h : parseUintLoop ds n = .ok un) :
    un = ds.foldl (fun n c => n * 10 + (c.toNat - '0'.toNat)) n := by
  induction ds generalizing n with
  | nil =>
    simp only [parseUintLoop, Except.ok.injEq] at h
    rw [← h]
    rfl
  | cons d ds ih =>
    simp only [parseUintLoop] at h
    split at h
    · split at h
      · cases h
      · split at h
        · cases h
        · exact ih _ h
    · cases h

theorem Atoi_error_of_out_of_range (s : String)
    (h : ¬ (-(2 ^ 63 : Int) ≤ signedDecimalValue s ∧ signedDecimalValue s < 2 ^ 63)) :
    ∃ e, Atoi s = .error (.NumError "Atoi" s e) := by
  unfold Atoi
  unfold signedDecimalValue at h
  cases hs : s.toList with
  | nil => exact ⟨_, rfl⟩
  | cons c cs =>
    simp only [hs] at h
    simp only
    cases hds : (if c = '+' ∨ c = '-' then cs else c :: cs) with
    | nil => exact ⟨_, rfl⟩
    | cons d ds =>
      cases hp : parseUintLoop (d :: ds) 0 with
      | error e => exact ⟨e, by simp only [hp]⟩
      | ok un =>
        have hv : un = digitsValue (d :: ds) := parseUintLoop_ok_value _ _ _ hp
        have hpow : (2 : Int) ^ 63 = 9223372036854775808 := by norm_num
        rw [hpow] at h
        by_cases hminus : c = '-'
        · have hcs : cs = d :: ds := by simpa [hminus] using hds
          rw [if_pos hminus, hcs, ← hv] at h
          have hbig : 9223372036854775808 < un := by omega
          exact ⟨.ErrRange, by simp [hp, hminus, hbig]⟩
        · have hval : (if c = '+' then (digitsValue cs : Int) else (digitsValue (c :: cs) : Int)) =
              (un : Int) := by
            by_cases hplus : c = '+'
            · have hcs : cs = d :: ds := by simpa [hplus] using hds
              rw [if_pos hplus, hcs, ← hv]
            · have hcs : c :: cs = d :: ds := by simpa [hplus, hminus] using hds
              rw [if_neg hplus, hcs, ← hv]
          rw [if_neg hminus, hval] at h
          have hbig : 9223372036854775808 ≤ un := by omega
          exact ⟨.ErrRange, by simp [hp, hminus, hbig]⟩

/-- C8 (as amended): for every interval override that is present (non-empty) and
is not the decimal representation of an integer of the `int` range (an optional
sign, one or more decimal digits, a value from `-2^63` to `2^63 - 1`), `"abc"` and
`"-9223372036854775809"` among them, `getInterval` returns a non-nil error, the
wrapped `*NumError` of `Atoi`. -/
theorem C8_malformed_interval_is_rejected (env : Environ)
    (hne : Getenv env "CIRCLECI_API_INTERVAL" ≠ "")
    (hbad : isIntLiteral (Getenv env "CIRCLECI_API_INTERVAL") = false) :
    ∃ e, getInterval env =
      .error (.Wrap "failed to read CircleCI Config"
        (.NumError "Atoi" (Getenv env "CIRCLECI_API_INTERVAL") e)) := by
  have hlen : (Getenv env "CIRCLECI_API_INTERVAL").length ≠ 0 := fun h0 =>
    hne ((length_eq_zero_iff _).mp h0)
  have hAtoi : ∃ e, Atoi (Getenv env "CIRCLECI_API_INTERVAL") =
      .error (.NumError "Atoi" (Getenv env "CIRCLECI_API_INTERVAL") e) := by
    cases hsd : isSignedDecimal (Getenv env "CIRCLECI_API_INTERVAL") with
    | false => exact Atoi_error _ hsd
    | true =>
      have hrange : ¬ (-(2 ^ 63 : Int) ≤ signedDecimalValue (Getenv env "CIRCLECI_API_INTERVAL") ∧
          signedDecimalValue (Getenv env "CIRCLECI_API_INTERVAL") < 2 ^ 63) := by
        simpa [isIntLiteral, hsd] using hbad
      exact Atoi_error_of_out_of_range _ hrange
  obtain ⟨e, he⟩ := hAtoi
  exact ⟨e, by simp [getInterval, hlen, he]⟩

/-- The property of C8 at a concrete run, its hypotheses discharged there. -/
theorem C8_witness :
    Getenv (envWithInterval "-9223372036854775809") "CIRCLECI_API_INTERVAL" ≠ "" ∧
      isIntLiteral (Getenv (envWithInterval "-9223372036854775809") "CIRCLECI_API_INTERVAL") =
        false ∧
      ∃ e, getInterval (envWithInterval "-9223372036854775809") =
        .error (.Wrap "failed to read CircleCI Config"
          (.NumError "Atoi"
            (Getenv (envWithInterval "-9223372036854775809") "CIRCLECI_API_INTERVAL") e)) :=
  ⟨by decide, by decide,
    C8_malformed_interval_is_rejected (envWithInterval "-9223372036854775809") (by decide)
      (by decide)⟩

/-- C8 fails as stated: the overrides `"0"` and `"-5"` are present and are not
decimal representations of a positive integer, and `getInterval` returns them as
`0` and `-5` with a nil error. -/
theorem C8_counterexample :
    getInterval (envWithInterval "0") = .ok 0 ∧
    getInterval (envWithInterval "-5") = .ok (-5) := by
  decide

/-- C9: when the interval override is not set, or set to the empty string,
`getInterval` returns 300 with a nil error. -/
theorem C9_absent_interval_yields_default (env : Environ)
    (h : env "CIRCLECI_API_INTERVAL" = none ∨ env "CIRCLECI_API_INTERVAL" = some "") :
    getInterval env = .ok 300 := by
  have hget : Getenv env "CIRCLECI_API_INTERVAL" = "" := by
    rcases h with h | h <;> simp [Getenv, h]
  simp [getInterval, hget, defaultCircleCIAPIIntervalSecond]

/-- The property of C9 at a concrete run, its hypotheses discharged there. -/
theorem C9_witness :
    (envWithToken "CIRCLECI_API_INTERVAL" = none ∨
        envWithToken "CIRCLECI_API_INTERVAL" = some "") ∧
      getInterval envWithToken = .ok 300 :=
  ⟨Or.inl (by decide), C9_absent_interval_yields_default envWithToken (Or.inl (by decide))⟩

end Exporter
